import Mathlib

/-!
Verification of the signal-to-control pipeline of the accessible head-driving
system: adaptive filtering, tremor/intention classification, motion
prediction, input stabilization, fatigue scoring and the command state
machine.  Each module below is a shallow embedding of the corresponding
Python class; real-valued measurements are embedded as rationals (exact
arithmetic), except where the source computes transcendental functions
(`exp`, `sqrt`), which are embedded over the reals.
-/

/-- `np.mean` over a list of rationals; `0` for the empty list. -/
def listMean (l : List ℚ) : ℚ := l.sum / l.length

/-- `np.var` (population variance) over a list of rationals. -/
def listVar (l : List ℚ) : ℚ := listMean (l.map (fun x => (x - listMean l) ^ 2))

/-- Append on a `collections.deque(maxlen=maxlen)`: push right, evict from the
left whenever the capacity is exceeded. -/
def pushBounded {α : Type} (maxlen : ℕ) (l : List α) (v : α) : List α :=
  if maxlen < (l ++ [v]).length then
    (l ++ [v]).drop ((l ++ [v]).length - maxlen)
  else l ++ [v]

/-- The last `k` entries of a list (Python `l[-k:]` for `k ≤ len(l)`). -/
def lastN {α : Type} (k : ℕ) (l : List α) : List α := l.drop (l.length - k)

namespace DrivingAssistant

/-- Discrete steering channel values of `driving_assistant.py`. -/
inductive Direction where
  | left
  | right
  | center
  deriving DecidableEq, Repr, Fintype

/-- Discrete throttle channel values of `driving_assistant.py`. -/
inductive Throttle where
  | forward
  | backward
  | neutral
  deriving DecidableEq, Repr

/-- State of `DrivingAssistant`: assistance level, trajectory-smoothing
history (maxlen 10), latched stable values, the per-candidate consecutive
frame counters, the debounce threshold and the auto-center flag. -/
structure State where
  assistanceLevel : ℕ
  trajectoryHistory : List ℤ
  stableDirection : Direction
  stableThrottle : Throttle
  directionChangeThreshold : ℕ
  cntLeft : ℕ
  cntRight : ℕ
  cntCenter : ℕ
  thrForward : ℕ
  thrBackward : ℕ
  thrNeutral : ℕ
  autoCenterEnabled : Bool

/-- `DrivingAssistant.__init__(assistance_level)`: the constructor always
starts with threshold 3 and auto-center off, whatever the level. -/
def init (assistanceLevel : ℕ) : State :=
  { assistanceLevel := assistanceLevel
    trajectoryHistory := []
    stableDirection := .center
    stableThrottle := .neutral
    directionChangeThreshold := 3
    cntLeft := 0, cntRight := 0, cntCenter := 0
    thrForward := 0, thrBackward := 0, thrNeutral := 0
    autoCenterEnabled := false }

/-- `DrivingAssistant.set_assistance_level`: clamp the stored level to `0..3`
and configure threshold/auto-center from the raw argument. -/
def setAssistanceLevel (level : ℕ) (s : State) : State :=
  let s0 := { s with assistanceLevel := min 3 level }
  if level = 0 then
    { s0 with autoCenterEnabled := false, directionChangeThreshold := 1 }
  else if level = 1 then
    { s0 with autoCenterEnabled := false, directionChangeThreshold := 2 }
  else if level = 2 then
    { s0 with autoCenterEnabled := false, directionChangeThreshold := 3 }
  else if level = 3 then
    { s0 with autoCenterEnabled := true, directionChangeThreshold := 4 }
  else s0

/-- The per-direction counter of the `direction_counter` dict. -/
def dirCount (s : State) : Direction → ℕ
  | .left => s.cntLeft
  | .right => s.cntRight
  | .center => s.cntCenter

/-- The relatch scan of `_stabilize_direction`: the `for …: if count >= T:
break` loop over the `direction_counter` dict, whose insertion order is
left, right, center; when no counter reaches the threshold the previous
latched value is kept. -/
def scanLatch (T cl cr cc : ℕ) (prev : Direction) : Direction :=
  if T ≤ cl then .left
  else if T ≤ cr then .right
  else if T ≤ cc then .center
  else prev

/-- `DrivingAssistant._stabilize_direction`: increment the raw candidate's
counter, decrement the others (floored at 0), then relatch. -/
def stabilizeDirection (raw : Direction) (s : State) : State :=
  let cl := if raw = .left then s.cntLeft + 1 else s.cntLeft - 1
  let cr := if raw = .right then s.cntRight + 1 else s.cntRight - 1
  let cc := if raw = .center then s.cntCenter + 1 else s.cntCenter - 1
  { s with cntLeft := cl, cntRight := cr, cntCenter := cc,
           stableDirection :=
             scanLatch s.directionChangeThreshold cl cr cc s.stableDirection }

/-- The raw threshold comparison of `process_steering`. -/
def rawDirection (yawAngle sensitivity : ℚ) : Direction :=
  if yawAngle < -sensitivity then .left
  else if sensitivity < yawAngle then .right
  else .center

/-- `DrivingAssistant.process_steering`. -/
def processSteering (yawAngle sensitivity : ℚ) (s : State) : Direction × State :=
  if s.assistanceLevel = 0 then (rawDirection yawAngle sensitivity, s)
  else
    let s1 := stabilizeDirection (rawDirection yawAngle sensitivity) s
    let s2 :=
      if s1.autoCenterEnabled ∧ s1.stableDirection = .center then
        { s1 with trajectoryHistory := pushBounded 10 s1.trajectoryHistory 0 }
      else
        let v : ℤ :=
          if s1.stableDirection = .left then -1
          else if s1.stableDirection = .right then 1 else 0
        { s1 with trajectoryHistory := pushBounded 10 s1.trajectoryHistory v }
    (s2.stableDirection, s2)

/-- Run `process_steering` over a whole yaw sequence, keeping the state. -/
def runSteering (yaws : List ℚ) (sensitivity : ℚ) (s : State) : State :=
  yaws.foldl (fun st yaw => (processSteering yaw sensitivity st).2) s

/-- Feed `k` consecutive identical raw frames into the direction stabilizer. -/
def feedDirection (d : Direction) : ℕ → State → State
  | 0, s => s
  | k + 1, s => stabilizeDirection d (feedDirection d k s)

/-- Feed `n` frames that alternate between raw candidates `a` and `b`,
starting with `a` (frame index `0` feeds `a`, index `1` feeds `b`, …). -/
def altFeed (a b : Direction) : ℕ → State → State
  | 0, s => s
  | n + 1, s => stabilizeDirection (if n % 2 = 0 then a else b) (altFeed a b n s)

end DrivingAssistant

namespace AdaptiveKalman

/-- State of `AdaptiveKalmanFilter` (`advanced_filters.py`): noise variances
`q`/`r`, scalar estimate `x`, error covariance `p`, the bounded innovation
window (maxlen 10) and the adaptation rate. -/
structure State where
  q : ℚ
  r : ℚ
  x : ℚ
  p : ℚ
  innovationHistory : List ℚ
  adaptRate : ℚ

/-- `AdaptiveKalmanFilter.__init__(process_variance, measurement_variance)`. -/
def init (processVariance measurementVariance : ℚ) : State :=
  { q := processVariance, r := measurementVariance, x := 0, p := 1,
    innovationHistory := [], adaptRate := 95 / 100 }

/-- `AdaptiveKalmanFilter._adapt_noise_covariance`: once the innovation
window holds at least 5 samples, blend `r` toward the window's variance and
clamp the result to `[0.01, 10.0]`. -/
def adaptNoiseCovariance (s : State) : State :=
  if s.innovationHistory.length < 5 then s
  else
    let innovationVar := listVar s.innovationHistory
    let r1 := s.adaptRate * s.r + (1 - s.adaptRate) * innovationVar
    { s with r := max (1 / 100) (min r1 10) }

/-- `AdaptiveKalmanFilter.update`: scalar predict/update, push `|innovation|`
into the bounded window, then adapt the measurement noise. -/
def update (s : State) (measurement : ℚ) : State :=
  let xPred := s.x
  let pPred := s.p + s.q
  let k := pPred / (pPred + s.r)
  let innovation := measurement - xPred
  adaptNoiseCovariance
    { s with
      x := xPred + k * innovation
      p := (1 - k) * pPred
      innovationHistory := pushBounded 10 s.innovationHistory |innovation| }

/-- Iterate `update` with a constant measurement. -/
def iterUpdate (m : ℚ) : ℕ → State → State
  | 0, s => s
  | n + 1, s => update (iterUpdate m n s) m

end AdaptiveKalman

namespace EnhancedDrive

/-- The reverse-threshold validation in `EnhancedAccessibleDriving.__init__`
(`enhanced_accessible_drive.py` lines 97–102): a configured release at or
above the engage threshold is replaced by `max(engage - 4, engage * 0.7)`. -/
def validateReversePitchRelease (threshold release : ℚ) : ℚ :=
  if threshold ≤ release then max (threshold - 4) (threshold * (7 / 10))
  else release

end EnhancedDrive

namespace FatigueMonitor

/-- State of `FatigueMonitor` relevant to scoring: cumulative active time
and the two bounded metric histories (maxlen 100 and 50). -/
structure State where
  totalActiveTime : ℚ
  inputPrecisionHistory : List ℚ
  correctionFrequencyHistory : List ℚ

/-- `self.max_continuous_time = 15 * 60`. -/
def maxContinuousTime : ℚ := 15 * 60

/-- The optional precision-degradation sub-score of
`_calculate_fatigue_score`, already weighted by 0.3: present once the
history holds more than 20 samples and the mean of the first 20 is
positive. -/
def precisionScoreTerms (h : List ℚ) : List ℚ :=
  if 20 < h.length then
    let recent := listMean (lastN 20 h)
    let early := listMean (h.take 20)
    if 0 < early then
      [max 0 (min 1 ((recent - early) / early)) * (3 / 10)]
    else []
  else []

/-- The optional correction-increase sub-score, weighted by 0.3: present
once the history holds more than 10 samples and the mean of the first 10 is
positive; the relative increase is divided by `max(early, 1)` and then
halved before clamping. -/
def correctionScoreTerms (h : List ℚ) : List ℚ :=
  if 10 < h.length then
    let recent := listMean (lastN 10 h)
    let early := listMean (h.take 10)
    if 0 < early then
      [max 0 (min 1 ((recent - early) / max early 1 / 2)) * (3 / 10)]
    else []
  else []

/-- `FatigueMonitor._calculate_fatigue_score`: the time sub-score (weight
0.4) is always present; absent sub-scores are simply omitted, and the score
is the plain `np.mean` of the weighted terms (weights not renormalized). -/
def calculateFatigueScore (s : State) : ℚ :=
  listMean ([min 1 (s.totalActiveTime / maxContinuousTime) * (2 / 5)]
    ++ precisionScoreTerms s.inputPrecisionHistory
    ++ correctionScoreTerms s.correctionFrequencyHistory)

/-- `FatigueMonitor._determine_fatigue_level`. -/
def determineFatigueLevel (score : ℚ) : String :=
  if score < 1 / 4 then "None"
  else if score < 1 / 2 then "Low"
  else if score < 3 / 4 then "Medium"
  else "High"

/-- One `FatigueMonitor.update` call, with `dt` seconds of wall time elapsed
since the previous call: accumulate active time when not paused and push the
two metrics into their bounded histories.  (`fatigue_score` is then
recomputed from this state by `calculateFatigueScore`.) -/
def update (isPaused : Bool) (dt inputVariance correctionCount : ℚ)
    (s : State) : State :=
  { totalActiveTime := s.totalActiveTime + (if isPaused then 0 else dt)
    inputPrecisionHistory :=
      pushBounded 100 s.inputPrecisionHistory inputVariance
    correctionFrequencyHistory :=
      pushBounded 50 s.correctionFrequencyHistory correctionCount }

/-- The monitor's state after `reset()` (or right after construction). -/
def initState : State := ⟨0, [], []⟩

/-- The rationals `start, start+1, …` of length `n`. -/
def countUp (start : ℚ) : ℕ → List ℚ
  | 0 => []
  | n + 1 => start :: countUp (start + 1) n

/-- The update sequence of the C8 counterexample session: `n` frames with
1000 s between frames and strictly increasing variance and correction
counts `1, 2, …, n`. -/
def sessionInputs (n : ℕ) : List (ℚ × ℚ × ℚ) :=
  (countUp 1 n).map (fun x => (1000, x, x))

/-- Run a sequence of unpaused `update` calls, each entry giving
`(dt, input_variance, correction_count)`. -/
def runSession (inputs : List (ℚ × ℚ × ℚ)) (s : State) : State :=
  inputs.foldl (fun st i => update false i.1 i.2.1 i.2.2 st) s

/-- A concrete mid-session state instantiating the amended monotonicity
step: both optional sub-scores already present, neither history full. -/
def witnessState : State :=
  { totalActiveTime := 300
    inputPrecisionHistory := countUp 1 21
    correctionFrequencyHistory := countUp 1 11 }

end FatigueMonitor

/-- Python `l[-1]` (the newest entry), with the type's default on the empty
list; the callers below only use it under a nonemptiness guard, as the
source does. -/
def lastD {α : Type} [Inhabited α] (l : List α) : α := (lastN 1 l).headI

/-- Python `l[-2]` (the second-newest entry), default-valued analogously. -/
def penultimate {α : Type} [Inhabited α] (l : List α) : α := (lastN 2 l).headI

namespace MotionPredictor

/-- State of `MotionPredictor` (`motion_predictor.py`): prediction horizon,
history capacity, the three bounded histories and the last prediction. -/
structure State where
  predictionSteps : ℕ
  historyLength : ℕ
  positionHistory : List (ℚ × ℚ)
  velocityHistory : List (ℚ × ℚ)
  accelerationHistory : List (ℚ × ℚ)
  lastPrediction : ℚ × ℚ

/-- `MotionPredictor.__init__(prediction_steps, history_length)`. -/
def init (predictionSteps historyLength : ℕ) : State :=
  { predictionSteps := predictionSteps, historyLength := historyLength
    positionHistory := [], velocityHistory := [], accelerationHistory := []
    lastPrediction := (0, 0) }

/-- `MotionPredictor._predict`: current position if no velocity data, else a
constant-velocity estimate from the mean velocity, refined by the kinematic
equation `s = s0 + v*t + 0.5*a*t^2` when acceleration data exists. -/
def predictFrom (s : State) : ℚ × ℚ :=
  if s.positionHistory.length = 0 then (0, 0)
  else
    let xy := lastD s.positionHistory
    if s.velocityHistory.length = 0 then xy
    else
      let avgVx := listMean (s.velocityHistory.map Prod.fst)
      let avgVy := listMean (s.velocityHistory.map Prod.snd)
      let t : ℚ := s.predictionSteps
      if 0 < s.accelerationHistory.length then
        let avgAx := listMean (s.accelerationHistory.map Prod.fst)
        let avgAy := listMean (s.accelerationHistory.map Prod.snd)
        (xy.1 + avgVx * t + (1 / 2) * avgAx * t ^ 2,
          xy.2 + avgVy * t + (1 / 2) * avgAy * t ^ 2)
      else (xy.1 + avgVx * t, xy.2 + avgVy * t)

/-- The acceleration-history step of `MotionPredictor.update`: once the
velocity history holds at least 2 entries, push the newest second
difference (bounded by `history_length - 1`); otherwise leave it alone. -/
def newAcceleration (s : State) (vx vy : ℚ) (vel : List (ℚ × ℚ)) :
    List (ℚ × ℚ) :=
  if 2 ≤ vel.length then
    pushBounded (s.historyLength - 1) s.accelerationHistory
      (vx - (penultimate vel).1, vy - (penultimate vel).2)
  else s.accelerationHistory

/-- `MotionPredictor.update(x, y)`: push the position, derive the newest
first/second differences into the bounded velocity and acceleration
histories, and return the prediction. -/
def update (x y : ℚ) (s : State) : State × (ℚ × ℚ) :=
  let pos := pushBounded s.historyLength s.positionHistory (x, y)
  if pos.length < 2 then
    ({ s with positionHistory := pos, lastPrediction := (x, y) }, (x, y))
  else
    let prev := penultimate pos
    let vx := x - prev.1
    let vy := y - prev.2
    let vel := pushBounded s.historyLength s.velocityHistory (vx, vy)
    let acc := newAcceleration s vx vy vel
    let s1 := { s with positionHistory := pos, velocityHistory := vel,
                       accelerationHistory := acc }
    let pred := predictFrom s1
    ({ s1 with lastPrediction := pred }, pred)

/-- Feed the constant-velocity ramp `x = i·k` (constant `y`) for
`i = 0, …, n` into a fresh predictor with the default history length 10. -/
def runRamp (k y : ℚ) (steps : ℕ) : ℕ → State × (ℚ × ℚ)
  | 0 => update (0 * k) y (init steps 10)
  | i + 1 => update (((i : ℚ) + 1) * k) y (runRamp k y steps i).1

/-- The state-shape invariant maintained along a constant-velocity ramp:
fixed configuration, a nonempty position history whose newest entry is
`(x0, y)`, every stored velocity equal to `(k, 0)` and every stored
acceleration equal to `(0, 0)`. -/
def GoodRamp (k y : ℚ) (steps : ℕ) (x0 : ℚ) (s : State) : Prop :=
  s.historyLength = 10 ∧ s.predictionSteps = steps
  ∧ 1 ≤ s.positionHistory.length
  ∧ lastD s.positionHistory = (x0, y)
  ∧ (∀ v ∈ s.velocityHistory, v = (k, 0))
  ∧ (∀ a ∈ s.accelerationHistory, a = (0, 0))

end MotionPredictor

namespace TremorDetector

/-- The analysis dict returned by `TremorDetector._analyze_movement`
(`tremor_detector.py`); the fields common to the small-window neutral result
and the full analysis.  (The full analysis additionally reports the raw
`amplitude` and a `velocity_rms` diagnostic, not modelled by any claim.) -/
structure Analysis where
  tremorDetected : Bool
  tremorIntensity : ℝ
  tremorFrequency : ℝ
  intentionConfidence : ℝ
  recommendedFilterStrength : ℝ

/-- The neutral result returned when fewer than 10 samples remain in the
detection window. -/
def neutralAnalysis : Analysis :=
  { tremorDetected := false, tremorIntensity := 0, tremorFrequency := 0,
    intentionConfidence := 1, recommendedFilterStrength := 0 }

/-- State of `TremorDetector`: configuration, the bounded position and
timestamp histories (maxlen 100), the timestamp of the last large movement
and the current intention confidence.  (The cached `tremor_*` flags of the
Python object are write-only mirrors of the returned analysis and are not
read on any path modelled here.) -/
structure State where
  tremorFreqLo : ℚ
  tremorFreqHi : ℚ
  minTremorAmplitude : ℚ
  detectionWindow : ℚ
  largeMovementThreshold : ℚ
  positionHistory : List (ℚ × ℚ)
  timestampHistory : List ℚ
  lastLargeMovementTime : ℚ
  intentionConfidence : ℝ

/-- `TremorDetector.__init__` with the default configuration. -/
noncomputable def init : State :=
  { tremorFreqLo := 4, tremorFreqHi := 12, minTremorAmplitude := 2,
    detectionWindow := 1, largeMovementThreshold := 10,
    positionHistory := [], timestampHistory := [],
    lastLargeMovementTime := 0, intentionConfidence := 0 }

/-- `TremorDetector._clean_old_data`: pop entries from the front of both
parallel histories while the front timestamp is older than the detection
window. -/
def cleanOldData (window currentTime : ℚ) :
    List (ℚ × ℚ) → List ℚ → List (ℚ × ℚ) × List ℚ
  | p :: ps, t :: ts =>
    if window < currentTime - t then cleanOldData window currentTime ps ts
    else (p :: ps, t :: ts)
  | ps, ts => (ps, ts)

/-- The exponential intention-confidence decay of
`_detect_intentional_movement`: `1.0 * exp(-time_since/decay_rate)` with
`decay_rate = 0.5` ("Seconds to halve confidence" per the source comment),
floored at 0.1. -/
noncomputable def decayedConfidence (timeSinceLargeMovement : ℝ) : ℝ :=
  max (1 / 10) (Real.exp (-timeSinceLargeMovement / (1 / 2)))

open Classical in
/-- `TremorDetector._detect_intentional_movement`: with fewer than 5
positions, confidence 0.5; when the Euclidean displacement between the
newest position and the fifth-newest exceeds the large-movement threshold,
confidence 1 and the large-movement timestamp is refreshed; otherwise the
confidence decays from that timestamp.  Returns the new
`(intention_confidence, last_large_movement_time)`. -/
noncomputable def detectIntentionalMovement (s : State)
    (positions : List (ℚ × ℚ)) (currentTime : ℚ) : ℝ × ℚ :=
  if positions.length < 5 then (1 / 2, s.lastLargeMovementTime)
  else
    let pLast := lastD positions
    let p5 := (lastN 5 positions).headI
    let recentDisplacement : ℝ :=
      Real.sqrt (((pLast.1 - p5.1 : ℚ) : ℝ) ^ 2 + ((pLast.2 - p5.2 : ℚ) : ℝ) ^ 2)
    if (s.largeMovementThreshold : ℝ) < recentDisplacement then (1, currentTime)
    else
      (decayedConfidence ((currentTime : ℝ) - (s.lastLargeMovementTime : ℝ)),
        s.lastLargeMovementTime)

/-- `np.sign` on a rational. -/
def qSign (x : ℚ) : ℚ := if x < 0 then -1 else if 0 < x then 1 else 0

/-- `TremorDetector._estimate_dominant_frequency`: zero-crossing counting on
the mean-removed x-signal; the average gap between crossing timestamps,
doubled, estimates the period. -/
def estimateDominantFrequency (positions : List (ℚ × ℚ))
    (timestamps : List ℚ) : ℚ :=
  if positions.length < 10 then 0
  else
    let signal := positions.map Prod.fst
    let m := listMean signal
    let signs := signal.map (fun x => qSign (x - m))
    let crossingTimes :=
      ((signs.zip signs.tail).zip timestamps).filterMap
        (fun p => if p.1.1 ≠ p.1.2 then some p.2 else none)
    if crossingTimes.length < 2 then 0
    else
      let avgPeriod :=
        listMean ((crossingTimes.zip crossingTimes.tail).map
          (fun p => p.2 - p.1)) * 2
      if avgPeriod = 0 then 0 else 1 / avgPeriod

/-- `np.ptp` (peak-to-peak range) of a list of rationals. -/
def ptp (l : List ℚ) : ℚ :=
  match l with
  | [] => 0
  | x :: xs => xs.foldl max x - xs.foldl min x

/-- `TremorDetector._calculate_amplitude`: larger of the per-axis
peak-to-peak ranges. -/
def calculateAmplitude (positions : List (ℚ × ℚ)) : ℚ :=
  if positions.length < 2 then 0
  else max (ptp (positions.map Prod.fst)) (ptp (positions.map Prod.snd))

open Classical in
/-- The full analysis of `_analyze_movement` once at least 10 samples are
present; `conf` is the freshly updated intention confidence. -/
noncomputable def fullAnalysis (s : State) (conf : ℝ) : Analysis :=
  let dominantFrequency :=
    estimateDominantFrequency s.positionHistory s.timestampHistory
  let amplitude := calculateAmplitude s.positionHistory
  if (s.tremorFreqLo ≤ dominantFrequency ∧ dominantFrequency ≤ s.tremorFreqHi)
      ∧ s.minTremorAmplitude ≤ amplitude ∧ conf < (1 / 2 : ℝ) then
    let frequencyCenter := (s.tremorFreqLo + s.tremorFreqHi) / 2
    let frequencyScore :=
      1 - |dominantFrequency - frequencyCenter| / frequencyCenter
    let amplitudeScore := min (amplitude / 20) 1
    let intensity := (frequencyScore + amplitudeScore) / 2
    { tremorDetected := true, tremorIntensity := (intensity : ℝ),
      tremorFrequency := (dominantFrequency : ℝ),
      intentionConfidence := conf,
      recommendedFilterStrength := (intensity : ℝ) * (8 / 10) }
  else
    { tremorDetected := false, tremorIntensity := 0,
      tremorFrequency := (dominantFrequency : ℝ),
      intentionConfidence := conf,
      recommendedFilterStrength := 0 }

/-- `TremorDetector.update(x, y)` at wall time `t`: push the sample, evict
entries older than the detection window, and analyze; with fewer than 10
remaining samples the neutral result is returned and the intention state is
left untouched (the Python `_analyze_movement` returns before
`_detect_intentional_movement` runs). -/
noncomputable def update (x y t : ℚ) (s : State) : State × Analysis :=
  let pos := pushBounded 100 s.positionHistory (x, y)
  let tsh := pushBounded 100 s.timestampHistory t
  let cleaned := cleanOldData s.detectionWindow t pos tsh
  let s1 := { s with positionHistory := cleaned.1, timestampHistory := cleaned.2 }
  if s1.positionHistory.length < 10 then (s1, neutralAnalysis)
  else
    let dm := detectIntentionalMovement s1 s1.positionHistory
      (lastD s1.timestampHistory)
    let s2 := { s1 with intentionConfidence := dm.1,
                        lastLargeMovementTime := dm.2 }
    (s2, fullAnalysis s2 dm.1)

end TremorDetector

namespace FaceDrive

/-- The safety configuration of `accessible_face_drive.py`
(`enable_auto_pause`, `pause_delay_seconds`, default 3 s). -/
structure Config where
  enableAutoPause : Bool
  pauseDelaySeconds : ℚ

/-- The control-safety state of `AccessibleHeadControlledDriving`: pause
flag, the time the face was first lost (None while a face is visible) and
the currently held keys. -/
structure State where
  isPaused : Bool
  faceLostTime : Option ℚ
  lastActiveKeys : List String

/-- `release_all_keys`. -/
def releaseAllKeys (s : State) : State := { s with lastActiveKeys := [] }

/-- `toggle_pause`: flip the pause flag and release every key when entering
pause. -/
def togglePause (s : State) : State :=
  let s1 := { s with isPaused := !s.isPaused }
  if s1.isPaused then releaseAllKeys s1 else s1

/-- One iteration of the `run` loop's face-not-detected branch
(`accessible_face_drive.py` lines 462–470) at wall time `t`: record the
first loss time, then — with auto-pause enabled — toggle into pause once
the elapsed loss time exceeds the configured delay. -/
def stepNoFace (cfg : Config) (t : ℚ) (s : State) : State :=
  match s.faceLostTime with
  | none => { s with faceLostTime := some t }
  | some t0 =>
    if cfg.enableAutoPause then
      if cfg.pauseDelaySeconds < t - t0 then
        if s.isPaused then s else togglePause s
      else s
    else s

/-- Process a sequence of consecutive no-face frames at the given times. -/
def runNoFace (cfg : Config) (ts : List ℚ) (s : State) : State :=
  ts.foldl (fun a t => stepNoFace cfg t a) s

end FaceDrive

namespace EnhancedDrive

/-- Motion states of the enhanced pipeline's command machine. -/
inductive Motion where
  | forward
  | reverse
  | brake
  | neutral
  deriving DecidableEq, Repr

/-- The control state of `EnhancedAccessibleDriving.run` relevant to signal
loss: pause flag, held keys and motion state. -/
structure RunState where
  isPaused : Bool
  lastActiveKeys : List String
  motionState : Motion

/-- One iteration of the enhanced `run` loop's no-face branch
(`enhanced_accessible_drive.py` lines 375–381): release all held keys and
reset the motion state; the pause flag is **not** touched (this pipeline has
no pause-delay logic — pausing happens only via the explicit toggle). -/
def stepNoFaceEnhanced (s : RunState) : RunState :=
  { s with lastActiveKeys := [], motionState := Motion.neutral }

end EnhancedDrive

namespace DrivingAssistant

theorem scanLatch_keep (T cl cr cc : ℕ) (prev : Direction)
    (h1 : cl < T) (h2 : cr < T) (h3 : cc < T) :
    scanLatch T cl cr cc prev = prev := by
  unfold scanLatch
  rw [if_neg (by omega), if_neg (by omega), if_neg (by omega)]

theorem scanLatch_hits_left (T cl cr cc : ℕ) (prev : Direction) (h : T ≤ cl) :
    scanLatch T cl cr cc prev = .left := by
  unfold scanLatch
  rw [if_pos h]

theorem scanLatch_hits_right (T cl cr cc : ℕ) (prev : Direction)
    (h1 : cl < T) (h2 : T ≤ cr) : scanLatch T cl cr cc prev = .right := by
  unfold scanLatch
  rw [if_neg (by omega), if_pos h2]

theorem scanLatch_hits_center (T cl cr cc : ℕ) (prev : Direction)
    (h1 : cl < T) (h2 : cr < T) (h3 : T ≤ cc) :
    scanLatch T cl cr cc prev = .center := by
  unfold scanLatch
  rw [if_neg (by omega), if_neg (by omega), if_pos h3]

theorem stabilize_threshold_eq (raw : Direction) (s : State) :
    (stabilizeDirection raw s).directionChangeThreshold
      = s.directionChangeThreshold := rfl

theorem stabilize_count_raw (raw : Direction) (s : State) :
    dirCount (stabilizeDirection raw s) raw = dirCount s raw + 1 := by
  cases raw <;> simp [stabilizeDirection, dirCount]

theorem stabilize_count_other (raw d : Direction) (hd : d ≠ raw) (s : State) :
    dirCount (stabilizeDirection raw s) d = dirCount s d - 1 := by
  cases raw <;> cases d <;> simp_all [stabilizeDirection, dirCount]

theorem stabilize_keeps_stable (raw : Direction) (s : State)
    (hraw : dirCount s raw + 1 < s.directionChangeThreshold)
    (hothers : ∀ d, d ≠ raw → dirCount s d - 1 < s.directionChangeThreshold) :
    (stabilizeDirection raw s).stableDirection = s.stableDirection := by
  cases raw with
  | left =>
    have hr := hothers .right (by simp)
    have hc := hothers .center (by simp)
    simp only [dirCount] at hraw hr hc
    simp only [stabilizeDirection, reduceCtorEq, if_true, if_false,
      ite_true, ite_false, reduceIte]
    exact scanLatch_keep _ _ _ _ _ (by omega) (by omega) (by omega)
  | right =>
    have hl := hothers .left (by simp)
    have hc := hothers .center (by simp)
    simp only [dirCount] at hraw hl hc
    simp only [stabilizeDirection, reduceCtorEq, if_true, if_false,
      ite_true, ite_false, reduceIte]
    exact scanLatch_keep _ _ _ _ _ (by omega) (by omega) (by omega)
  | center =>
    have hl := hothers .left (by simp)
    have hr := hothers .right (by simp)
    simp only [dirCount] at hraw hl hr
    simp only [stabilizeDirection, reduceCtorEq, if_true, if_false,
      ite_true, ite_false, reduceIte]
    exact scanLatch_keep _ _ _ _ _ (by omega) (by omega) (by omega)

theorem stabilize_latches (raw : Direction) (s : State)
    (hc : s.directionChangeThreshold ≤ dirCount s raw + 1)
    (hothers : ∀ d, d ≠ raw → dirCount s d - 1 < s.directionChangeThreshold) :
    (stabilizeDirection raw s).stableDirection = raw := by
  cases raw with
  | left =>
    simp only [dirCount] at hc
    simp only [stabilizeDirection, reduceCtorEq, if_true, if_false,
      ite_true, ite_false, reduceIte]
    exact scanLatch_hits_left _ _ _ _ _ (by omega)
  | right =>
    have hl := hothers .left (by simp)
    simp only [dirCount] at hc hl
    simp only [stabilizeDirection, reduceCtorEq, if_true, if_false,
      ite_true, ite_false, reduceIte]
    exact scanLatch_hits_right _ _ _ _ _ (by omega) (by omega)
  | center =>
    have hl := hothers .left (by simp)
    have hr := hothers .right (by simp)
    simp only [dirCount] at hc hl hr
    simp only [stabilizeDirection, reduceCtorEq, if_true, if_false,
      ite_true, ite_false, reduceIte]
    exact scanLatch_hits_center _ _ _ _ _ (by omega) (by omega) (by omega)

theorem feedDirection_count_raw (d : Direction) (k : ℕ) (s : State) :
    dirCount (feedDirection d k s) d = dirCount s d + k := by
  induction k with
  | zero => rfl
  | succ k ih => simp [feedDirection, stabilize_count_raw, ih]; omega

theorem feedDirection_count_other (d e : Direction) (he : e ≠ d) (k : ℕ)
    (s : State) : dirCount (feedDirection d k s) e = dirCount s e - k := by
  induction k with
  | zero => rfl
  | succ k ih => simp [feedDirection, stabilize_count_other _ _ he, ih]; omega

theorem feedDirection_threshold (d : Direction) (k : ℕ) (s : State) :
    (feedDirection d k s).directionChangeThreshold
      = s.directionChangeThreshold := by
  induction k with
  | zero => rfl
  | succ k ih => simp [feedDirection, stabilize_threshold_eq, ih]

theorem altFeed_threshold (a b : Direction) (n : ℕ) (s : State) :
    (altFeed a b n s).directionChangeThreshold
      = s.directionChangeThreshold := by
  induction n with
  | zero => rfl
  | succ n ih => simp [altFeed, stabilize_threshold_eq, ih]

/-- Core invariant for the oscillating-input scenario: starting from zeroed
counters, after `n` alternating frames all counters stay `≤ 1`, the
candidate due at frame `n` has counter `0`, and the latch is unchanged. -/
theorem altFeed_invariant (a b : Direction) (hab : a ≠ b) (s : State)
    (h0 : ∀ d, dirCount s d = 0) (hT : 2 ≤ s.directionChangeThreshold) :
    ∀ n : ℕ,
      (altFeed a b n s).stableDirection = s.stableDirection
      ∧ (∀ d, dirCount (altFeed a b n s) d ≤ 1)
      ∧ dirCount (altFeed a b n s) (if n % 2 = 0 then a else b) = 0 := by
  intro n
  induction n with
  | zero =>
    refine ⟨rfl, fun d => ?_, ?_⟩
    · show dirCount s d ≤ 1
      rw [h0 d]
      omega
    · show dirCount s _ = 0
      exact h0 _
  | succ n ih =>
    obtain ⟨hst, hle, hzero⟩ := ih
    have hthr : (altFeed a b n s).directionChangeThreshold
        = s.directionChangeThreshold := altFeed_threshold a b n s
    have hkeep :
        (stabilizeDirection (if n % 2 = 0 then a else b)
            (altFeed a b n s)).stableDirection
          = (altFeed a b n s).stableDirection := by
      apply stabilize_keeps_stable
      · rw [hzero]
        omega
      · intro d _
        have := hle d
        omega
    have hnext : (if (n + 1) % 2 = 0 then a else b)
        ≠ (if n % 2 = 0 then a else b) := by
      rcases Nat.even_or_odd n with hpar | hpar
      · have h1 : n % 2 = 0 := Nat.even_iff.mp hpar
        have h2 : (n + 1) % 2 = 1 := by omega
        simp [h1, h2, Ne.symm hab]
      · have h1 : n % 2 = 1 := Nat.odd_iff.mp hpar
        have h2 : (n + 1) % 2 = 0 := by omega
        simp [h1, h2, hab]
    simp only [altFeed]
    refine ⟨by rw [hkeep, hst], fun d => ?_, ?_⟩
    · rcases eq_or_ne d (if n % 2 = 0 then a else b) with rfl | hd
      · rw [stabilize_count_raw, hzero]
      · rw [stabilize_count_other _ _ hd]
        have := hle d
        omega
    · rw [stabilize_count_other _ _ hnext]
      have := hle (if (n + 1) % 2 = 0 then a else b)
      omega

/-- C3: starting from a freshly constructed stabilizer at assistance level 2
(debounce threshold 3), feeding the yaw sequence
`[20, -15, 18, -12, 20, 22, 20, 19]` through `process_steering` with
sensitivity 15 leaves the final latched steering value equal to `right`. -/
theorem steering_scenario_latches_right :
    (runSteering [20, -15, 18, -12, 20, 22, 20, 19] 15 (init 2)).stableDirection
      = Direction.right := by decide

/-- C2 counterexample: at debounce threshold `T = 3` (the constructor's
default, assistance level 2), from the reachable state obtained by feeding
ten `left` frames after a fresh reset, three consecutive identical `right`
frames do **not** move the latch to `right`: the scan order of the counter
dict returns `left`, whose decayed counter is still at the threshold. -/
theorem stabilizer_sustained_run_counterexample :
    (init 2).directionChangeThreshold = 3
    ∧ (feedDirection .right 3 (feedDirection .left 10 (init 2))).stableDirection
        = Direction.left
    ∧ Direction.left ≠ Direction.right := by decide

/-- C2 (amended): with debounce threshold `T ≥ 2` (assistance levels 1–3),
(a) from a freshly reset stabilizer, a raw input sequence alternating between
two candidates every frame never changes the latched value, for any number of
frames; (b) from any state whose **other** candidates' counters are all below
`2·T`, feeding `T` consecutive identical raw frames always latches that
candidate. -/
theorem stabilizer_debounce_amended (level : ℕ) (h1 : 1 ≤ level)
    (h3 : level ≤ 3) (a b : Direction) (hab : a ≠ b) (n : ℕ)
    (s : State) (c : Direction) (hT : 2 ≤ s.directionChangeThreshold)
    (hothers : ∀ d, d ≠ c → dirCount s d < 2 * s.directionChangeThreshold) :
    (altFeed a b n (setAssistanceLevel level (init level))).stableDirection
        = Direction.center
    ∧ (feedDirection c s.directionChangeThreshold s).stableDirection = c := by
  constructor
  · have h0 : ∀ d, dirCount (setAssistanceLevel level (init level)) d = 0 := by
      intro d
      interval_cases level <;> cases d <;> rfl
    have hth : 2 ≤ (setAssistanceLevel level (init level)).directionChangeThreshold := by
      interval_cases level <;> decide
    have hinv := (altFeed_invariant a b hab _ h0 hth n).1
    have hstable :
        (setAssistanceLevel level (init level)).stableDirection
          = Direction.center := by
      interval_cases level <;> rfl
    rw [hinv, hstable]
  · obtain ⟨k, hk⟩ : ∃ k, s.directionChangeThreshold = k + 1 :=
      ⟨s.directionChangeThreshold - 1, by omega⟩
    rw [hk]
    show (stabilizeDirection c (feedDirection c k s)).stableDirection = c
    apply stabilize_latches
    · rw [feedDirection_threshold, feedDirection_count_raw, hk]
      omega
    · intro d hd
      rw [feedDirection_threshold, feedDirection_count_other _ _ hd]
      have := hothers d hd
      omega

/-- C2 amended, instantiated: level 2, oscillation `left`/`right` for five
frames keeps the latch at `center`; three `right` frames from a fresh state
(whose other counters are zero) latch `right`. -/
theorem stabilizer_debounce_amended_witness :
    ((1 : ℕ) ≤ 2 ∧ (2 : ℕ) ≤ 3 ∧ Direction.left ≠ Direction.right
      ∧ 2 ≤ (init 2).directionChangeThreshold
      ∧ (∀ d, d ≠ Direction.right →
          dirCount (init 2) d < 2 * (init 2).directionChangeThreshold))
    ∧ ((altFeed Direction.left Direction.right 5
          (setAssistanceLevel 2 (init 2))).stableDirection = Direction.center
      ∧ (feedDirection Direction.right (init 2).directionChangeThreshold
          (init 2)).stableDirection = Direction.right) :=
  ⟨⟨by omega, by omega, by decide, by decide, by decide⟩,
   stabilizer_debounce_amended 2 (by omega) (by omega)
     Direction.left Direction.right (by decide) 5 (init 2) Direction.right
     (by decide) (by decide)⟩

end DrivingAssistant

namespace AdaptiveKalman

theorem adapt_r_clamped (t : State) (h5 : 5 ≤ t.innovationHistory.length) :
    1 / 100 ≤ (adaptNoiseCovariance t).r ∧ (adaptNoiseCovariance t).r ≤ 10 := by
  unfold adaptNoiseCovariance
  rw [if_neg (by omega)]
  constructor
  · exact le_max_left _ _
  · exact max_le (by norm_num) (min_le_right _ _)

theorem adapt_innovationHistory (t : State) :
    (adaptNoiseCovariance t).innovationHistory = t.innovationHistory := by
  unfold adaptNoiseCovariance
  split_ifs <;> rfl

/-- C4: after any `update` call in which the adaptation step runs (the
innovation window holds at least 5 samples), the measurement-noise variance
`r` lies in `[0.01, 10.0]`, for every measurement and every prior state. -/
theorem kalman_r_clamped (s : State) (m : ℚ)
    (h : 5 ≤ (update s m).innovationHistory.length) :
    1 / 100 ≤ (update s m).r ∧ (update s m).r ≤ 10 := by
  simp only [update] at h ⊢
  rw [adapt_innovationHistory] at h
  exact adapt_r_clamped _ h

/-- C4 witness: five updates with measurement 1 on the default filter
(`q = 0.01`, `r = 0.1`) fill the window to 5 samples, and the resulting `r`
is inside `[0.01, 10]`. -/
theorem kalman_r_clamped_witness :
    5 ≤ (update (iterUpdate 1 4 (init (1 / 100) (1 / 10))) 1).innovationHistory.length
    ∧ (1 / 100 ≤ (update (iterUpdate 1 4 (init (1 / 100) (1 / 10))) 1).r
        ∧ (update (iterUpdate 1 4 (init (1 / 100) (1 / 10))) 1).r ≤ 10) :=
  ⟨by decide, kalman_r_clamped _ 1 (by decide)⟩

end AdaptiveKalman

namespace EnhancedDrive

/-- C5 counterexample: with engage threshold 0 and configured release 5 the
auto-corrected release is `max(0 − 4, 0 · 0.7) = 0`, which is **not**
strictly below the engage threshold. -/
theorem reverse_release_counterexample :
    validateReversePitchRelease 0 5 = 0
    ∧ ¬ validateReversePitchRelease 0 5 < 0 := by
  constructor
  · unfold validateReversePitchRelease
    rw [if_pos (by norm_num)]
    norm_num
  · unfold validateReversePitchRelease
    rw [if_pos (by norm_num)]
    norm_num

/-- C5 (amended): whenever the engage threshold is positive, the validated
release is strictly below it; and a misconfigured release (≥ engage) is
replaced by exactly `max(engage − 4, engage · 0.7)`. -/
theorem reverse_release_validated (threshold release : ℚ)
    (hpos : 0 < threshold) :
    validateReversePitchRelease threshold release < threshold
    ∧ (threshold ≤ release →
        validateReversePitchRelease threshold release
          = max (threshold - 4) (threshold * (7 / 10))) := by
  unfold validateReversePitchRelease
  split_ifs with h
  · refine ⟨max_lt (by linarith) (by linarith), fun _ => rfl⟩
  · exact ⟨by linarith [not_le.mp h], fun hc => absurd hc h⟩

/-- C5 amended, instantiated at the default configuration (engage 18,
release 12). -/
theorem reverse_release_validated_witness :
    (0 : ℚ) < 18
    ∧ (validateReversePitchRelease 18 12 < 18
        ∧ ((18 : ℚ) ≤ 12 → validateReversePitchRelease 18 12
            = max (18 - 4) (18 * (7 / 10)))) :=
  ⟨by norm_num, reverse_release_validated 18 12 (by norm_num)⟩

end EnhancedDrive

theorem listMean_le_of_forall_le (l : List ℚ) (c : ℚ) (hne : l ≠ [])
    (h : ∀ x ∈ l, x ≤ c) : listMean l ≤ c := by
  have hlen : 0 < (l.length : ℚ) := by
    exact_mod_cast List.length_pos.mpr hne
  unfold listMean
  rw [div_le_iff hlen]
  have hs := List.sum_le_card_nsmul l c h
  rw [nsmul_eq_mul] at hs
  linarith

theorem listMean_mono_sum (l₁ l₂ : List ℚ) (hne : l₁ ≠ [])
    (hlen : l₁.length = l₂.length) (hsum : l₁.sum ≤ l₂.sum) :
    listMean l₁ ≤ listMean l₂ := by
  have hpos : 0 < (l₁.length : ℚ) := by
    exact_mod_cast List.length_pos.mpr hne
  unfold listMean
  rw [← hlen]
  gcongr

theorem pushBounded_of_lt {α : Type} (maxlen : ℕ) (l : List α) (v : α)
    (h : l.length < maxlen) : pushBounded maxlen l v = l ++ [v] := by
  unfold pushBounded
  rw [if_neg (by simp only [List.length_append, List.length_singleton]; omega)]

theorem lastN_length {α : Type} (k : ℕ) (l : List α) (hk : k ≤ l.length) :
    (lastN k l).length = k := by
  unfold lastN
  rw [List.length_drop]
  omega

theorem lastN_push {α : Type} (k : ℕ) (l : List α) (v : α) (hk1 : 1 ≤ k) :
    lastN k (l ++ [v]) = lastN (k - 1) l ++ [v] := by
  unfold lastN
  rw [List.length_append, List.length_singleton,
    List.drop_append_of_le_length (by omega)]
  congr 2
  omega

theorem lastN_cons (k : ℕ) (l : List ℚ) (hk1 : 1 ≤ k) (hk : k ≤ l.length) :
    lastN k l
      = l.get ⟨l.length - k, by omega⟩ :: lastN (k - 1) l := by
  unfold lastN
  rw [List.drop_eq_getElem_cons (by omega)]
  congr 2
  omega

theorem listMean_lastN_push (k : ℕ) (l : List ℚ) (v : ℚ) (hk1 : 1 ≤ k)
    (hk : k ≤ l.length) (hv : ∀ x ∈ l, x ≤ v) :
    listMean (lastN k l) ≤ listMean (lastN k (l ++ [v])) := by
  have h1 : lastN k (l ++ [v]) = lastN (k - 1) l ++ [v] := lastN_push k l v hk1
  have h2 : lastN k l = l.get ⟨l.length - k, by omega⟩ :: lastN (k - 1) l :=
    lastN_cons k l hk1 hk
  have hle := hv _ (l.get_mem (l.length - k) (by omega))
  have hlen3 : (lastN (k - 1) l).length = k - 1 := lastN_length _ _ (by omega)
  unfold listMean
  rw [h1, h2]
  simp only [List.sum_cons, List.sum_append, List.sum_singleton, List.sum_nil,
    List.length_cons, List.length_append, List.length_singleton,
    List.length_nil, Nat.zero_add, Nat.add_zero, add_zero, hlen3]
  have hkk : k - 1 + 1 = k := by omega
  rw [hkk]
  have hpos : (0 : ℚ) < (k : ℚ) := by exact_mod_cast (by omega : 0 < k)
  rw [div_le_div_iff_of_pos_right hpos]
  linarith

namespace FatigueMonitor

theorem precisionScoreTerms_le (h : List ℚ) :
    ∀ x ∈ precisionScoreTerms h, x ≤ 3 / 10 := by
  intro x hx
  simp only [precisionScoreTerms] at hx
  split_ifs at hx
  · rw [List.mem_singleton] at hx
    subst hx
    exact mul_le_of_le_one_left (by norm_num)
      (max_le (by norm_num) (min_le_left _ _))
  · exact absurd hx (by simp)
  · exact absurd hx (by simp)

theorem correctionScoreTerms_le (h : List ℚ) :
    ∀ x ∈ correctionScoreTerms h, x ≤ 3 / 10 := by
  intro x hx
  simp only [correctionScoreTerms] at hx
  split_ifs at hx
  · rw [List.mem_singleton] at hx
    subst hx
    exact mul_le_of_le_one_left (by norm_num)
      (max_le (by norm_num) (min_le_left _ _))
  · exact absurd hx (by simp)
  · exact absurd hx (by simp)

/-- C6: the fatigue score produced by `update` never exceeds 0.4 — each
sub-score is clamped to `[0,1]` and weighted by 0.4 or 0.3, and the score is
the plain mean of the present weighted terms — so the reported fatigue level
is always `None` or `Low`, never `Medium` or `High`. -/
theorem fatigue_score_bounded (s : State) :
    calculateFatigueScore s ≤ 2 / 5
    ∧ (determineFatigueLevel (calculateFatigueScore s) = "None"
        ∨ determineFatigueLevel (calculateFatigueScore s) = "Low") := by
  have hmean : calculateFatigueScore s ≤ 2 / 5 := by
    unfold calculateFatigueScore
    apply listMean_le_of_forall_le _ _ (by simp)
    intro x hx
    rcases List.mem_append.mp hx with hx | hx
    · rcases List.mem_append.mp hx with hx | hx
      · rw [List.mem_singleton] at hx
        subst hx
        exact mul_le_of_le_one_left (by norm_num) (min_le_left _ _)
      · exact le_trans (precisionScoreTerms_le _ x hx) (by norm_num)
    · exact le_trans (correctionScoreTerms_le _ x hx) (by norm_num)
  refine ⟨hmean, ?_⟩
  unfold determineFatigueLevel
  split_ifs with h1 h2
  · exact Or.inl rfl
  · exact Or.inr rfl
  · exfalso; rw [not_lt] at h2; linarith
  · exfalso; rw [not_lt] at h2; linarith

end FatigueMonitor

namespace FatigueMonitor

/-- C8 counterexample: an 11-update session with `is_paused = false`,
strictly increasing `input_variance` and `correction_count` and no breaks,
in which the fatigue score **drops** at the 11th update: the correction
sub-score first becomes present there, and the unrenormalized mean dilutes
the saturated time term. -/
theorem fatigue_monotonicity_counterexample :
    List.Pairwise (fun a b => a < b) ((sessionInputs 11).map (fun t => t.2.1))
    ∧ List.Pairwise (fun a b => a < b) ((sessionInputs 11).map (fun t => t.2.2))
    ∧ calculateFatigueScore (runSession (sessionInputs 11) initState)
        < calculateFatigueScore (runSession (sessionInputs 10) initState) := by
  refine ⟨?_, ?_, ?_⟩
  · norm_num [sessionInputs, countUp]
  · norm_num [sessionInputs, countUp]
  · norm_num [sessionInputs, countUp, runSession, update, initState,
      calculateFatigueScore, precisionScoreTerms, correctionScoreTerms,
      listMean, listVar, lastN, pushBounded, maxContinuousTime,
      max_def, min_def]

end FatigueMonitor

namespace FatigueMonitor

theorem precisionScoreTerms_small (h : List ℚ) (hlen : ¬ 20 < h.length) :
    precisionScoreTerms h = [] := by
  unfold precisionScoreTerms
  rw [if_neg hlen]

theorem precisionScoreTerms_early_np (h : List ℚ) (hlen : 20 < h.length)
    (he : ¬ 0 < listMean (h.take 20)) : precisionScoreTerms h = [] := by
  unfold precisionScoreTerms
  rw [if_pos hlen, if_neg he]

theorem precisionScoreTerms_big (h : List ℚ) (hlen : 20 < h.length)
    (he : 0 < listMean (h.take 20)) :
    precisionScoreTerms h
      = [max 0 (min 1 ((listMean (lastN 20 h) - listMean (h.take 20))
            / listMean (h.take 20))) * (3 / 10)] := by
  unfold precisionScoreTerms
  rw [if_pos hlen, if_pos he]

theorem correctionScoreTerms_small (h : List ℚ) (hlen : ¬ 10 < h.length) :
    correctionScoreTerms h = [] := by
  unfold correctionScoreTerms
  rw [if_neg hlen]

theorem correctionScoreTerms_early_np (h : List ℚ) (hlen : 10 < h.length)
    (he : ¬ 0 < listMean (h.take 10)) : correctionScoreTerms h = [] := by
  unfold correctionScoreTerms
  rw [if_pos hlen, if_neg he]

theorem correctionScoreTerms_big (h : List ℚ) (hlen : 10 < h.length)
    (he : 0 < listMean (h.take 10)) :
    correctionScoreTerms h
      = [max 0 (min 1 ((listMean (lastN 10 h) - listMean (h.take 10))
            / max (listMean (h.take 10)) 1 / 2)) * (3 / 10)] := by
  unfold correctionScoreTerms
  rw [if_pos hlen, if_pos he]

theorem precisionScoreTerms_mono (h : List ℚ) (v : ℚ)
    (hv : ∀ x ∈ h, x ≤ v) (hne20 : h.length ≠ 20) :
    (precisionScoreTerms (h ++ [v])).length = (precisionScoreTerms h).length
    ∧ (precisionScoreTerms h).sum ≤ (precisionScoreTerms (h ++ [v])).sum := by
  have hlenv : (h ++ [v]).length = h.length + 1 := by
    rw [List.length_append, List.length_singleton]
  rcases Nat.lt_or_ge h.length 20 with hlen | hlen
  · rw [precisionScoreTerms_small h (by omega),
      precisionScoreTerms_small (h ++ [v]) (by omega)]
    exact ⟨rfl, le_refl _⟩
  · have h20 : 20 < h.length := by omega
    have h20v : 20 < (h ++ [v]).length := by omega
    have htake : (h ++ [v]).take 20 = h.take 20 :=
      List.take_append_of_le_length (by omega)
    have hrec : listMean (lastN 20 h) ≤ listMean (lastN 20 (h ++ [v])) :=
      listMean_lastN_push 20 h v (by omega) (by omega) hv
    by_cases hearly : 0 < listMean (h.take 20)
    · have hearlyv : 0 < listMean ((h ++ [v]).take 20) := by
        rw [htake]; exact hearly
      rw [precisionScoreTerms_big h h20 hearly,
        precisionScoreTerms_big (h ++ [v]) h20v hearlyv, htake]
      refine ⟨by rw [List.length_singleton, List.length_singleton], ?_⟩
      simp only [List.sum_cons, List.sum_nil, add_zero]
      have hdiv : (listMean (lastN 20 h) - listMean (h.take 20))
            / listMean (h.take 20)
          ≤ (listMean (lastN 20 (h ++ [v])) - listMean (h.take 20))
            / listMean (h.take 20) :=
        (div_le_div_iff_of_pos_right hearly).mpr (by linarith)
      have hclamp := max_le_max (le_refl (0 : ℚ))
        (min_le_min (le_refl (1 : ℚ)) hdiv)
      exact mul_le_mul_of_nonneg_right hclamp (by norm_num)
    · have hearlyv : ¬ 0 < listMean ((h ++ [v]).take 20) := by
        rw [htake]; exact hearly
      rw [precisionScoreTerms_early_np h h20 hearly,
        precisionScoreTerms_early_np (h ++ [v]) h20v hearlyv]
      exact ⟨rfl, le_refl _⟩

theorem correctionScoreTerms_mono (h : List ℚ) (c : ℚ)
    (hc : ∀ x ∈ h, x ≤ c) (hne10 : h.length ≠ 10) :
    (correctionScoreTerms (h ++ [c])).length = (correctionScoreTerms h).length
    ∧ (correctionScoreTerms h).sum ≤ (correctionScoreTerms (h ++ [c])).sum := by
  have hlenv : (h ++ [c]).length = h.length + 1 := by
    rw [List.length_append, List.length_singleton]
  rcases Nat.lt_or_ge h.length 10 with hlen | hlen
  · rw [correctionScoreTerms_small h (by omega),
      correctionScoreTerms_small (h ++ [c]) (by omega)]
    exact ⟨rfl, le_refl _⟩
  · have h10 : 10 < h.length := by omega
    have h10v : 10 < (h ++ [c]).length := by omega
    have htake : (h ++ [c]).take 10 = h.take 10 :=
      List.take_append_of_le_length (by omega)
    have hrec : listMean (lastN 10 h) ≤ listMean (lastN 10 (h ++ [c])) :=
      listMean_lastN_push 10 h c (by omega) (by omega) hc
    by_cases hearly : 0 < listMean (h.take 10)
    · have hearlyv : 0 < listMean ((h ++ [c]).take 10) := by
        rw [htake]; exact hearly
      rw [correctionScoreTerms_big h h10 hearly,
        correctionScoreTerms_big (h ++ [c]) h10v hearlyv, htake]
      refine ⟨by rw [List.length_singleton, List.length_singleton], ?_⟩
      simp only [List.sum_cons, List.sum_nil, add_zero]
      have hdenpos : (0 : ℚ) < max (listMean (h.take 10)) 1 :=
        lt_of_lt_of_le zero_lt_one (le_max_right _ _)
      have hdiv1 : (listMean (lastN 10 h) - listMean (h.take 10))
            / max (listMean (h.take 10)) 1
          ≤ (listMean (lastN 10 (h ++ [c])) - listMean (h.take 10))
            / max (listMean (h.take 10)) 1 :=
        (div_le_div_iff_of_pos_right hdenpos).mpr (by linarith)
      have hdiv2 : (listMean (lastN 10 h) - listMean (h.take 10))
            / max (listMean (h.take 10)) 1 / 2
          ≤ (listMean (lastN 10 (h ++ [c])) - listMean (h.take 10))
            / max (listMean (h.take 10)) 1 / 2 :=
        (div_le_div_iff_of_pos_right (by norm_num : (0 : ℚ) < 2)).mpr hdiv1
      have hclamp := max_le_max (le_refl (0 : ℚ))
        (min_le_min (le_refl (1 : ℚ)) hdiv2)
      exact mul_le_mul_of_nonneg_right hclamp (by norm_num)
    · have hearlyv : ¬ 0 < listMean ((h ++ [c]).take 10) := by
        rw [htake]; exact hearly
      rw [correctionScoreTerms_early_np h h10 hearly,
        correctionScoreTerms_early_np (h ++ [c]) h10v hearlyv]
      exact ⟨rfl, le_refl _⟩

/-- C8 (amended): across a single unpaused `update` with nonnegative elapsed
time and inputs at least as large as every history entry, the fatigue score
does not decrease — provided the update neither makes a new sub-score
present (the history is not exactly at its activation boundary of 20
resp. 10 samples) nor evicts from a full bounded history (lengths below
100 resp. 50).  At an update where a new sub-score first becomes present,
or once a history saturates, the score may drop. -/
theorem fatigue_score_monotone_step (s : State) (dt v c : ℚ)
    (hdt : 0 ≤ dt)
    (hv : ∀ x ∈ s.inputPrecisionHistory, x ≤ v)
    (hc : ∀ x ∈ s.correctionFrequencyHistory, x ≤ c)
    (hp20 : s.inputPrecisionHistory.length ≠ 20)
    (hp100 : s.inputPrecisionHistory.length < 100)
    (hc10 : s.correctionFrequencyHistory.length ≠ 10)
    (hc50 : s.correctionFrequencyHistory.length < 50) :
    calculateFatigueScore s ≤ calculateFatigueScore (update false dt v c s) := by
  obtain ⟨hplen, hpsum⟩ := precisionScoreTerms_mono _ v hv hp20
  obtain ⟨hclen, hcsum⟩ := correctionScoreTerms_mono _ c hc hc10
  have htime : min 1 (s.totalActiveTime / maxContinuousTime) * (2 / 5)
      ≤ min 1 ((s.totalActiveTime + dt) / maxContinuousTime) * (2 / 5) := by
    have h1 : s.totalActiveTime / maxContinuousTime
        ≤ (s.totalActiveTime + dt) / maxContinuousTime :=
      (div_le_div_iff_of_pos_right (by norm_num [maxContinuousTime])).mpr
        (by linarith)
    exact mul_le_mul_of_nonneg_right (min_le_min (le_refl 1) h1) (by norm_num)
  unfold calculateFatigueScore update
  simp only [pushBounded_of_lt _ _ _ hp100, pushBounded_of_lt _ _ _ hc50,
    Bool.false_eq_true, if_false]
  apply listMean_mono_sum _ _ (by simp)
  · simp only [List.length_append, List.length_cons, List.length_nil]
    omega
  · simp only [List.sum_append, List.sum_cons, List.sum_nil, add_zero]
    linarith

/-- C8 amended, instantiated at a concrete mid-session state (histories of
21 and 11 strictly increasing samples, neither at an activation boundary
nor full), with `dt = 1` and inputs 100 dominating every history entry. -/
theorem fatigue_score_monotone_step_witness :
    ((0 : ℚ) ≤ 1
      ∧ (∀ x ∈ witnessState.inputPrecisionHistory, x ≤ 100)
      ∧ (∀ x ∈ witnessState.correctionFrequencyHistory, x ≤ 100)
      ∧ witnessState.inputPrecisionHistory.length ≠ 20
      ∧ witnessState.inputPrecisionHistory.length < 100
      ∧ witnessState.correctionFrequencyHistory.length ≠ 10
      ∧ witnessState.correctionFrequencyHistory.length < 50)
    ∧ calculateFatigueScore witnessState
        ≤ calculateFatigueScore (update false 1 100 100 witnessState) :=
  ⟨⟨by norm_num, by norm_num [witnessState, countUp],
    by norm_num [witnessState, countUp],
    by decide, by decide, by decide, by decide⟩,
   fatigue_score_monotone_step witnessState 1 100 100 (by norm_num)
     (by norm_num [witnessState, countUp])
     (by norm_num [witnessState, countUp])
     (by decide) (by decide) (by decide) (by decide)⟩

end FatigueMonitor

theorem pushBounded_length {α : Type} (m : ℕ) (l : List α) (v : α) :
    (pushBounded m l v).length = min (l.length + 1) m := by
  unfold pushBounded
  split_ifs with h
  · rw [List.length_drop, List.length_append, List.length_singleton]
    rw [List.length_append, List.length_singleton] at h
    omega
  · rw [List.length_append, List.length_singleton]
    rw [List.length_append, List.length_singleton] at h
    omega

theorem pushBounded_forall {α : Type} (m : ℕ) (l : List α) (v : α)
    (p : α → Prop) (hl : ∀ x ∈ l, p x) (hv : p v) :
    ∀ x ∈ pushBounded m l v, p x := by
  intro x hx
  unfold pushBounded at hx
  split_ifs at hx with h
  · rcases List.mem_append.mp (List.mem_of_mem_drop hx) with h1 | h1
    · exact hl x h1
    · rw [List.mem_singleton] at h1
      subst h1
      exact hv
  · rcases List.mem_append.mp hx with h1 | h1
    · exact hl x h1
    · rw [List.mem_singleton] at h1
      subst h1
      exact hv

theorem lastN_drop {α : Type} (L : List α) (t j : ℕ) (ht : t ≤ L.length)
    (h : j ≤ L.length - t) : lastN j (L.drop t) = lastN j L := by
  unfold lastN
  rw [List.drop_drop, List.length_drop]
  congr 1
  omega

theorem lastN_pushBounded {α : Type} (m j : ℕ) (l : List α) (v : α)
    (hj : j ≤ m) : lastN j (pushBounded m l v) = lastN j (l ++ [v]) := by
  unfold pushBounded
  split_ifs with h
  · apply lastN_drop <;> omega
  · rfl

theorem lastD_pushBounded {α : Type} [Inhabited α] (m : ℕ) (l : List α)
    (v : α) (hm : 1 ≤ m) : lastD (pushBounded m l v) = v := by
  unfold lastD
  rw [lastN_pushBounded m 1 l v hm]
  unfold lastN
  rw [List.length_append, List.length_singleton]
  have h1 : l.length + 1 - 1 = l.length := by omega
  rw [h1, List.drop_append_of_le_length (le_refl _), List.drop_length]
  rfl

theorem penultimate_pushBounded {α : Type} [Inhabited α] (m : ℕ)
    (l : List α) (v : α) (hm : 2 ≤ m) (hl : l ≠ []) :
    penultimate (pushBounded m l v) = lastD l := by
  have hlen : 1 ≤ l.length := List.length_pos.mpr hl
  unfold penultimate
  rw [lastN_pushBounded m 2 l v hm]
  unfold lastN lastD lastN
  rw [List.length_append, List.length_singleton]
  have h1 : l.length + 1 - 2 = l.length - 1 := by omega
  rw [h1, List.drop_append_of_le_length (by omega),
    List.drop_eq_getElem_cons (by omega : l.length - 1 < l.length)]
  rfl

theorem lastD_mem {α : Type} [Inhabited α] (l : List α) (hl : l ≠ []) :
    lastD l ∈ l := by
  have hlen : 1 ≤ l.length := List.length_pos.mpr hl
  unfold lastD lastN
  rw [List.drop_eq_getElem_cons (by omega : l.length - 1 < l.length)]
  exact List.get_mem l (l.length - 1) (by omega)

theorem penultimate_mem {α : Type} [Inhabited α] (l : List α)
    (hl : 2 ≤ l.length) : penultimate l ∈ l := by
  unfold penultimate lastN
  rw [List.drop_eq_getElem_cons (by omega : l.length - 2 < l.length)]
  exact List.get_mem l (l.length - 2) (by omega)

theorem listMean_const (l : List ℚ) (c : ℚ) (hne : l ≠ [])
    (h : ∀ x ∈ l, x = c) : listMean l = c := by
  have hsum := List.sum_eq_card_nsmul l c h
  unfold listMean
  rw [hsum, nsmul_eq_mul]
  have hlen : (l.length : ℚ) ≠ 0 := by
    have := List.length_pos.mpr hne
    exact_mod_cast Nat.pos_iff_ne_zero.mp this
  field_simp

namespace MotionPredictor

theorem newAcceleration_good (s : State) (k vx vy : ℚ)
    (vel : List (ℚ × ℚ))
    (hacc : ∀ a ∈ s.accelerationHistory, a = (0, 0))
    (hvel : ∀ v ∈ vel, v = (k, 0)) (hvx : vx = k) (hvy : vy = 0) :
    ∀ a ∈ newAcceleration s vx vy vel, a = (0, 0) := by
  intro a ha
  unfold newAcceleration at ha
  split_ifs at ha with hvl
  · have hpv : penultimate vel = (k, 0) := hvel _ (penultimate_mem vel hvl)
    refine pushBounded_forall _ _ _ _ hacc ?_ a ha
    rw [hpv, hvx, hvy]
    show (k - k, (0 : ℚ) - 0) = (0, 0)
    norm_num
  · exact hacc a ha

theorem predictFrom_good (k : ℚ) (s : State)
    (hpos : 1 ≤ s.positionHistory.length)
    (hvelne : s.velocityHistory ≠ [])
    (hvel : ∀ v ∈ s.velocityHistory, v = (k, 0))
    (hacc : ∀ a ∈ s.accelerationHistory, a = (0, 0)) :
    (predictFrom s).1
      = (lastD s.positionHistory).1 + k * (s.predictionSteps : ℚ) := by
  simp only [predictFrom]
  rw [if_neg (by omega), if_neg (by
    simp only [ne_eq, List.length_eq_zero]
    exact hvelne)]
  have havg : listMean (s.velocityHistory.map Prod.fst) = k := by
    apply listMean_const _ _ (by simpa using hvelne)
    intro z hz
    rcases List.mem_map.mp hz with ⟨p, hp, rfl⟩
    rw [hvel p hp]
  by_cases hacclen : 0 < s.accelerationHistory.length
  · rw [if_pos hacclen]
    have haccne : s.accelerationHistory ≠ [] :=
      List.ne_nil_of_length_pos hacclen
    have havgA : listMean (s.accelerationHistory.map Prod.fst) = 0 := by
      apply listMean_const _ _ (by simpa using haccne)
      intro z hz
      rcases List.mem_map.mp hz with ⟨p, hp, rfl⟩
      rw [hacc p hp]
    show (lastD s.positionHistory).1
        + listMean (s.velocityHistory.map Prod.fst) * (s.predictionSteps : ℚ)
        + 1 / 2 * listMean (s.accelerationHistory.map Prod.fst)
          * (s.predictionSteps : ℚ) ^ 2 = _
    rw [havg, havgA]
    ring
  · rw [if_neg hacclen]
    show (lastD s.positionHistory).1
        + listMean (s.velocityHistory.map Prod.fst) * (s.predictionSteps : ℚ) = _
    rw [havg]

end MotionPredictor

namespace MotionPredictor

theorem update_good (k y : ℚ) (steps : ℕ) (x0 x : ℚ) (s : State)
    (hs : GoodRamp k y steps x0 s) (hx : x - x0 = k) :
    GoodRamp k y steps x (update x y s).1
    ∧ ((update x y s).2).1 = x + k * (steps : ℚ) := by
  obtain ⟨h10, hsteps, hposlen, hlast, hvel, hacc⟩ := hs
  have hposne : s.positionHistory ≠ [] := by
    intro hcon
    rw [hcon] at hposlen
    simp at hposlen
  have h2 : ¬ (pushBounded s.historyLength s.positionHistory (x, y)).length < 2 := by
    rw [pushBounded_length, h10]
    omega
  have hpen : penultimate (pushBounded s.historyLength s.positionHistory (x, y))
      = (x0, y) := by
    rw [penultimate_pushBounded _ _ _ (by omega) hposne, hlast]
  have hvxy :
      (x - (penultimate (pushBounded s.historyLength s.positionHistory (x, y))).1,
        y - (penultimate (pushBounded s.historyLength s.positionHistory (x, y))).2)
      = (k, 0) := by
    rw [hpen]
    show (x - x0, y - y) = (k, 0)
    rw [hx, sub_self]
  have hvx : x - (penultimate (pushBounded s.historyLength s.positionHistory (x, y))).1
      = k := by
    rw [hpen]
    exact hx
  have hvy : y - (penultimate (pushBounded s.historyLength s.positionHistory (x, y))).2
      = 0 := by
    rw [hpen]
    exact sub_self y
  have hvel2 : ∀ v ∈ pushBounded s.historyLength s.velocityHistory
      (x - (penultimate (pushBounded s.historyLength s.positionHistory (x, y))).1,
        y - (penultimate (pushBounded s.historyLength s.positionHistory (x, y))).2),
      v = (k, 0) := pushBounded_forall _ _ _ _ hvel hvxy
  have hacc2 := newAcceleration_good s k _ _
    (pushBounded s.historyLength s.velocityHistory
      (x - (penultimate (pushBounded s.historyLength s.positionHistory (x, y))).1,
        y - (penultimate (pushBounded s.historyLength s.positionHistory (x, y))).2))
    hacc hvel2 hvx hvy
  simp only [update]
  rw [if_neg h2]
  constructor
  · refine ⟨h10, hsteps, ?_, ?_, hvel2, hacc2⟩
    · show 1 ≤ (pushBounded s.historyLength s.positionHistory (x, y)).length
      rw [pushBounded_length]
      omega
    · show lastD (pushBounded s.historyLength s.positionHistory (x, y)) = (x, y)
      exact lastD_pushBounded _ _ _ (by omega)
  · refine (predictFrom_good k _ ?_ ?_ hvel2 hacc2).trans ?_
    · show 1 ≤ (pushBounded s.historyLength s.positionHistory (x, y)).length
      rw [pushBounded_length]
      omega
    · show pushBounded s.historyLength s.velocityHistory _ ≠ []
      apply List.ne_nil_of_length_pos
      rw [pushBounded_length]
      omega
    · show (lastD (pushBounded s.historyLength s.positionHistory (x, y))).1
          + k * ((s.predictionSteps : ℕ) : ℚ) = x + k * (steps : ℚ)
      rw [lastD_pushBounded _ _ _ (by omega), hsteps]

/-- The ramp invariant holds after every update along `x = i·k`. -/
theorem runRamp_good (k y : ℚ) (steps : ℕ) :
    ∀ i : ℕ, GoodRamp k y steps ((i : ℚ) * k) (runRamp k y steps i).1 := by
  intro i
  induction i with
  | zero =>
    have h1 : pushBounded 10 ([] : List (ℚ × ℚ)) (0 * k, y) = [(0 * k, y)] :=
      pushBounded_of_lt _ _ _ (by norm_num)
    show GoodRamp k y steps _ (update (0 * k) y (init steps 10)).1
    simp only [update, init, h1]
    rw [if_pos (by norm_num)]
    refine ⟨rfl, rfl, by norm_num, ?_, ?_, ?_⟩
    · show lastD [(0 * k, y)] = (((0 : ℕ) : ℚ) * k, y)
      norm_num [lastD, lastN]
    · intro v hv
      simp at hv
    · intro a ha
      simp at ha
  | succ i ih =>
    have hx : ((i : ℚ) + 1) * k - (i : ℚ) * k = k := by ring
    have hstep := (update_good k y steps ((i : ℚ) * k) (((i : ℚ) + 1) * k)
      _ ih hx).1
    have hcast : (((i + 1 : ℕ)) : ℚ) = (i : ℚ) + 1 := by push_cast; ring
    show GoodRamp k y steps (((i + 1 : ℕ) : ℚ) * k)
      (update (((i : ℚ) + 1) * k) y (runRamp k y steps i).1).1
    rw [hcast]
    exact hstep

/-- C10: with `prediction_steps = steps`, feeding the constant-velocity
sequence `x = i·k` (constant `y`) for `i = 0..N` into a fresh predictor:
once the velocity history is populated (`i ≥ 1`), each `update(i·k, y)`
returns a predicted x within 1 unit of `(i + steps)·k` (in fact exactly
equal to it). -/
theorem predictor_constant_velocity (k y : ℚ) (steps i : ℕ) (hi : 1 ≤ i) :
    |((runRamp k y steps i).2).1 - ((i : ℚ) + (steps : ℚ)) * k| < 1 := by
  obtain ⟨j, rfl⟩ : ∃ j, i = j + 1 := ⟨i - 1, by omega⟩
  have hgood := runRamp_good k y steps j
  have hx : ((j : ℚ) + 1) * k - (j : ℚ) * k = k := by ring
  have hpred := (update_good k y steps ((j : ℚ) * k) (((j : ℚ) + 1) * k)
    _ hgood hx).2
  show |((update (((j : ℚ) + 1) * k) y (runRamp k y steps j).1).2).1
      - (((j + 1 : ℕ) : ℚ) + (steps : ℚ)) * k| < 1
  rw [hpred]
  have hcast : (((j + 1 : ℕ)) : ℚ) = (j : ℚ) + 1 := by push_cast; ring
  rw [hcast]
  have heq : ((j : ℚ) + 1) * k + k * (steps : ℚ)
      - ((j : ℚ) + 1 + (steps : ℚ)) * k = 0 := by ring
  rw [show ((j : ℚ) + 1) * k + k * (steps : ℚ)
      - ((j : ℚ) + 1 + (steps : ℚ)) * k
      = ((j : ℚ) + 1) * k + k * (steps : ℚ)
      - ((j : ℚ) + 1 + (steps : ℚ)) * k from rfl, heq, abs_zero]
  norm_num

/-- C10 witness: `k = 2`, `y = 7`, `steps = 3`, fifth update. -/
theorem predictor_constant_velocity_witness :
    (1 : ℕ) ≤ 5
    ∧ |((runRamp 2 7 3 5).2).1 - (((5 : ℕ) : ℚ) + ((3 : ℕ) : ℚ)) * 2| < 1 :=
  ⟨by norm_num, predictor_constant_velocity 2 7 3 5 (by norm_num)⟩

end MotionPredictor

namespace TremorDetector

/-- C9: whenever `update` is called and fewer than 10 samples remain in the
detection window after evicting entries older than the window, it returns
the neutral result: `tremor_detected = false`, `tremor_intensity = 0.0`,
`tremor_frequency = 0.0`, `intention_confidence = 1.0` and
`recommended_filter_strength = 0.0`. -/
theorem tremor_update_neutral (s : State) (x y t : ℚ)
    (h : (cleanOldData s.detectionWindow t
        (pushBounded 100 s.positionHistory (x, y))
        (pushBounded 100 s.timestampHistory t)).1.length < 10) :
    (update x y t s).2 = neutralAnalysis := by
  simp only [update]
  split_ifs
  rfl

/-- C9 witness: the very first sample (fresh detector, one entry in the
window) yields the neutral result. -/
theorem tremor_update_neutral_witness :
    (cleanOldData init.detectionWindow 0
        (pushBounded 100 init.positionHistory (0, 0))
        (pushBounded 100 init.timestampHistory 0)).1.length < 10
    ∧ (update 0 0 0 init).2 = neutralAnalysis :=
  ⟨by norm_num [init, cleanOldData, pushBounded],
   tremor_update_neutral init 0 0 0
     (by norm_num [init, cleanOldData, pushBounded])⟩

/-- C7 (code bug): the decay uses `exp(-t/decay_rate)`, so at
`t = decay_rate = 0.5 s` the confidence equals `e⁻¹ ≈ 0.368`, not the `1/2`
that a half-life of `decay_rate` (claimed by the spec and by the source's
own comment "Seconds to halve confidence") would demand. -/
theorem intention_confidence_decay_bug :
    decayedConfidence (1 / 2) < 1 / 2 := by
  have e1 : decayedConfidence (1 / 2) = max (1 / 10) (Real.exp (-1)) := by
    unfold decayedConfidence
    norm_num
  have hpos : Real.exp (-1 : ℝ) = (Real.exp 1)⁻¹ := Real.exp_neg 1
  have h2 : (2 : ℝ) < Real.exp 1 := lt_trans (by norm_num) Real.exp_one_gt_d9
  have h10 : Real.exp 1 < 10 := lt_trans Real.exp_one_lt_d9 (by norm_num)
  have hlow : (1 / 10 : ℝ) < Real.exp (-1) := by
    rw [hpos, show (1 / 10 : ℝ) = 10⁻¹ by norm_num]
    exact inv_strictAnti₀ (Real.exp_pos 1) h10
  have hup : Real.exp (-1 : ℝ) < 1 / 2 := by
    rw [hpos, show (1 / 2 : ℝ) = 2⁻¹ by norm_num]
    exact inv_strictAnti₀ (by norm_num) h2
  rw [e1, max_eq_right hlow.le]
  exact hup

end TremorDetector

namespace FaceDrive

theorem togglePause_faceLost (st : State) :
    (togglePause st).faceLostTime = st.faceLostTime := by
  simp only [togglePause, releaseAllKeys]
  split_ifs <;> rfl

theorem togglePause_of_not_paused (st : State) (h : st.isPaused = false) :
    (togglePause st).isPaused = true
    ∧ (togglePause st).lastActiveKeys = [] := by
  simp [togglePause, releaseAllKeys, h]

theorem stepNoFace_faceLost (cfg : Config) (t t0 : ℚ) (st : State)
    (h : st.faceLostTime = some t0) :
    (stepNoFace cfg t st).faceLostTime = some t0 := by
  simp only [stepNoFace, h]
  split_ifs <;> first | exact h | (rw [togglePause_faceLost]; exact h)

theorem stepNoFace_inv (cfg : Config) (t : ℚ) (st : State)
    (hinv : st.isPaused = true → st.lastActiveKeys = []) :
    (stepNoFace cfg t st).isPaused = true
      → (stepNoFace cfg t st).lastActiveKeys = [] := by
  rcases hml : st.faceLostTime with _ | t0 <;> simp only [stepNoFace, hml]
  · exact hinv
  · split_ifs with h1 h2 h3
    · exact hinv
    · intro _
      exact (togglePause_of_not_paused st (by simpa using h3)).2
    · exact hinv
    · exact hinv

theorem stepNoFace_triggers (cfg : Config) (t t0 : ℚ) (st : State)
    (hauto : cfg.enableAutoPause = true)
    (h : st.faceLostTime = some t0)
    (hinv : st.isPaused = true → st.lastActiveKeys = [])
    (ht : cfg.pauseDelaySeconds < t - t0) :
    (stepNoFace cfg t st).isPaused = true
    ∧ (stepNoFace cfg t st).lastActiveKeys = [] := by
  have hstep : stepNoFace cfg t st
      = if st.isPaused then st else togglePause st := by
    simp [stepNoFace, h, hauto, ht]
  rw [hstep]
  split_ifs with hp
  · exact ⟨hp, hinv hp⟩
  · exact togglePause_of_not_paused st (by simpa using hp)

theorem runNoFace_aux (cfg : Config) (hauto : cfg.enableAutoPause = true)
    (t0 : ℚ) :
    ∀ (rest : List ℚ) (st : State), st.faceLostTime = some t0 →
      (st.isPaused = true → st.lastActiveKeys = []) →
      ∀ (hne : rest ≠ []),
      cfg.pauseDelaySeconds < rest.getLast hne - t0 →
      (rest.foldl (fun a t => stepNoFace cfg t a) st).isPaused = true
      ∧ (rest.foldl (fun a t => stepNoFace cfg t a) st).lastActiveKeys = [] := by
  intro rest
  induction rest with
  | nil => intro st _ _ hne; exact absurd rfl hne
  | cons t rest ih =>
    intro st hlost hinv hne hlate
    rcases eq_or_ne rest [] with hrest | hrest
    · subst hrest
      simp only [List.foldl]
      have hlast : (([t] : List ℚ).getLast hne) = t := rfl
      rw [hlast] at hlate
      exact stepNoFace_triggers cfg t t0 st hauto hlost hinv hlate
    · have hstep1 : (stepNoFace cfg t st).faceLostTime = some t0 :=
        stepNoFace_faceLost cfg t t0 st hlost
      have hstep2 := stepNoFace_inv cfg t st hinv
      have hlast : (t :: rest).getLast hne = rest.getLast hrest :=
        List.getLast_cons hrest
      rw [hlast] at hlate
      exact ih (stepNoFace cfg t st) hstep1 hstep2 hrest hlate

/-- C1 (amended): in the face-drive pipeline (`accessible_face_drive.py`),
with auto-pause enabled and starting with the face just lost, processing
consecutive no-face frames whose last frame lies more than the configured
pause delay after the first results in `paused` mode with an empty active
key set.  In the enhanced pipeline (`enhanced_accessible_drive.py`), a
no-face frame immediately empties the active key set but never changes the
pause flag (that pipeline has no signal-loss pause). -/
theorem signal_loss_pause_amended (cfg : Config) (s : State) (t0 : ℚ)
    (rest : List ℚ) (hauto : cfg.enableAutoPause = true)
    (hlost : s.faceLostTime = none)
    (hinv : s.isPaused = true → s.lastActiveKeys = [])
    (hne : rest ≠ [])
    (hlate : cfg.pauseDelaySeconds < rest.getLast hne - t0) :
    ((runNoFace cfg (t0 :: rest) s).isPaused = true
      ∧ (runNoFace cfg (t0 :: rest) s).lastActiveKeys = [])
    ∧ (∀ e : EnhancedDrive.RunState,
        (EnhancedDrive.stepNoFaceEnhanced e).lastActiveKeys = []
        ∧ (EnhancedDrive.stepNoFaceEnhanced e).isPaused = e.isPaused) := by
  constructor
  · have hfirst : stepNoFace cfg t0 s = { s with faceLostTime := some t0 } := by
      simp only [stepNoFace, hlost]
    have h1 : ({ s with faceLostTime := some t0 } : State).faceLostTime
        = some t0 := rfl
    have h2 : ({ s with faceLostTime := some t0 } : State).isPaused = true
        → ({ s with faceLostTime := some t0 } : State).lastActiveKeys = [] :=
      hinv
    show ((t0 :: rest).foldl (fun a t => stepNoFace cfg t a) s).isPaused = true
      ∧ ((t0 :: rest).foldl (fun a t => stepNoFace cfg t a) s).lastActiveKeys = []
    rw [List.foldl_cons, hfirst]
    exact runNoFace_aux cfg hauto t0 rest _ h1 h2 hne hlate
  · intro e
    exact ⟨rfl, rfl⟩

/-- C1 counterexample (to the claim as stated over both cited pipelines):
in the enhanced pipeline, after 200 consecutive no-face frames — an
arbitrarily long signal loss — the keys are released but the mode is still
not `paused`. -/
theorem signal_loss_pause_counterexample :
    ((EnhancedDrive.stepNoFaceEnhanced)^[200]
        { isPaused := false, lastActiveKeys := ["z"],
          motionState := EnhancedDrive.Motion.forward }).isPaused = false
    ∧ ((EnhancedDrive.stepNoFaceEnhanced)^[200]
        { isPaused := false, lastActiveKeys := ["z"],
          motionState := EnhancedDrive.Motion.forward }).lastActiveKeys
        = [] := by decide

/-- C1 amended, instantiated: delay 3 s, face lost at `t = 0`, further
no-face frames at 1 s, 2 s and 3.1 s. -/
theorem signal_loss_pause_amended_witness :
    ((⟨true, 3⟩ : Config).enableAutoPause = true
      ∧ (⟨false, none, ["z"]⟩ : State).faceLostTime = none
      ∧ ([1, 2, 31 / 10] : List ℚ) ≠ []
      ∧ (⟨true, 3⟩ : Config).pauseDelaySeconds
          < ([1, 2, 31 / 10] : List ℚ).getLast (by simp) - 0)
    ∧ (((runNoFace ⟨true, 3⟩ (0 :: [1, 2, 31 / 10])
          ⟨false, none, ["z"]⟩).isPaused = true
        ∧ (runNoFace ⟨true, 3⟩ (0 :: [1, 2, 31 / 10])
            ⟨false, none, ["z"]⟩).lastActiveKeys = [])
      ∧ (∀ e : EnhancedDrive.RunState,
          (EnhancedDrive.stepNoFaceEnhanced e).lastActiveKeys = []
          ∧ (EnhancedDrive.stepNoFaceEnhanced e).isPaused = e.isPaused)) :=
  ⟨⟨rfl, rfl, by simp, by norm_num⟩,
   signal_loss_pause_amended ⟨true, 3⟩ ⟨false, none, ["z"]⟩ 0 [1, 2, 31 / 10]
     rfl rfl (by intro hx; exact absurd hx (by decide)) (by simp)
     (by norm_num)⟩

end FaceDrive
